import Mathlib

/-!
Verification of the incremental store scanner of this repository
(`steam_new_store_rss.py`, `safe_state.py`): a shallow embedding of its
data model and core operations in Lean, with theorems checking the
specification's claims about the snapshot/diff engine, the rolling
scanner, the event bounding and dedup store, and the durable state store.

Modelling conventions:
  * Python `str` is Lean `String`; character-level work is done on
    `String.data` (`List Char`).  Python string ordering (code-point
    lexicographic) is re-implemented as the Bool comparison `strLe`
    because it must evaluate inside the kernel.
  * Python `dict` is an association list in insertion order; `dictGet?`
    / `dictSet` mirror `d.get(k)` / `d[k] = v`.
  * Remote fetches (`fetch_appdetails`, `fetch_appdetails_once`) are
    oracles `Nat → Option ItemData`: `none` models every way a fetch can
    come back unusable (`success: false`, missing data, an exception that
    the caller catches and turns into `ok = False`).
  * `random.shuffle` is an injected `shuffle : List Nat → List Nat`
    together with a permutation hypothesis, following the spec's
    "injectable random source" design note.
  * Machine-word arithmetic inside SHA-1 is `Nat` with explicit `% 2^32`.
-/

/-! ## Python-style string primitives -/

/-- Code-point lexicographic comparison of char lists, as Python compares
strings. -/
def charListLe : List Char → List Char → Bool
  | [], _ => true
  | _ :: _, [] => false
  | a :: as, b :: bs =>
    if a < b then true
    else if a = b then charListLe as bs
    else false

/-- Python `s1 <= s2` on strings. -/
def strLe (a b : String) : Bool := charListLe a.data b.data

/-- The ordering relation fed to sorting, as a `Prop`. -/
def strLeP (a b : String) : Prop := strLe a b = true

instance : DecidableRel strLeP := fun a b => instDecidableEqBool (strLe a b) true

/-- Python `sorted` on a list of strings (a stable sort; equal keys cannot
occur twice after `set(...)` anyway). -/
def sortStrings (l : List String) : List String := List.insertionSort strLeP l

/-- Python `d.get(k)` on an insertion-ordered dict. -/
def dictGet? {α : Type} : List (String × α) → String → Option α
  | [], _ => Option.none
  | (k', v) :: t, k => if k' = k then Option.some v else dictGet? t k

/-- Python `d[k] = v`: replace in place if the key exists, else append. -/
def dictSet {α : Type} : List (String × α) → String → α → List (String × α)
  | [], k, v => [(k, v)]
  | (k', v') :: t, k, v => if k' = k then (k, v) :: t else (k', v') :: dictSet t k v

/-- The decimal digit character for `d < 10`. -/
def digitCh (d : Nat) : Char := Char.ofNat (48 + d)

/-- Fuel-driven most-significant-first decimal digits of `n` (fuel keeps the
recursion structural so it evaluates in the kernel). -/
def natDigitsAux : Nat → Nat → List Nat
  | 0, _ => []
  | fuel + 1, n => if n < 10 then [n] else natDigitsAux fuel (n / 10) ++ [n % 10]

/-- Python `str(n)` for a natural number. -/
def py_str (n : Nat) : String := String.mk ((natDigitsAux (n + 1) n).map digitCh)

/-- Python `pat in s` on char lists: `pat` occurs as a contiguous infix. -/
def hasSubstr (pat : List Char) : List Char → Bool
  | [] => pat.isEmpty
  | c :: t => pat.isPrefixOf (c :: t) || hasSubstr pat t

/-- The characters Python `str.strip()` removes. -/
def pySpace (c : Char) : Bool :=
  c = ' ' || c = '\t' || c = '\n' || c = '\r' || c = '\x0b' || c = '\x0c'

/-- Python `s.strip()`. -/
def pyStrip (l : List Char) : List Char :=
  ((l.dropWhile pySpace).reverse.dropWhile pySpace).reverse

/-- Python `s.lower()` restricted to ASCII letters (the only case mapping the
modelled inputs exercise). -/
def pyLower (l : List Char) : List Char :=
  l.map fun c => if 'A' ≤ c && c ≤ 'Z' then Char.ofNat (c.toNat + 32) else c

/-- Python `s.replace(pat, rep)` for a non-empty literal `pat`: leftmost,
non-overlapping occurrences.  Fuel keeps the recursion structural. -/
def replaceAllAux : Nat → List Char → List Char → List Char → List Char
  | 0, l, _, _ => l
  | fuel + 1, l, pat, rep =>
    match l with
    | [] => []
    | c :: t =>
      if !pat.isEmpty && pat.isPrefixOf (c :: t) then
        rep ++ replaceAllAux fuel ((c :: t).drop pat.length) pat rep
      else
        c :: replaceAllAux fuel t pat rep

/-- Python `s.replace(pat, rep)` (empty `pat` never occurs at a call site and
is left unchanged). -/
def replaceAll (l pat rep : List Char) : List Char := replaceAllAux l.length l pat rep

/-! ## SHA-1 (`hashlib.sha1(... .encode("utf-8")).hexdigest()`) -/

/-- UTF-8 bytes of one character. -/
def utf8Bytes (c : Char) : List Nat :=
  let n := c.toNat
  if n < 0x80 then [n]
  else if n < 0x800 then [0xC0 + n / 64, 0x80 + n % 64]
  else if n < 0x10000 then [0xE0 + n / 4096, 0x80 + (n / 64) % 64, 0x80 + n % 64]
  else [0xF0 + n / 262144, 0x80 + (n / 4096) % 64, 0x80 + (n / 64) % 64, 0x80 + n % 64]

/-- UTF-8 encoding of a string as a byte list. -/
def utf8Encode (s : String) : List Nat := s.data.flatMap utf8Bytes

/-- Left rotation of a 32-bit word held in a `Nat`. -/
def rotl32 (k x : Nat) : Nat := (x % 2 ^ (32 - k)) * 2 ^ k + x / 2 ^ (32 - k)

/-- `k` big-endian bytes of `n`. -/
def beBytes : Nat → Nat → List Nat
  | 0, _ => []
  | k + 1, n => beBytes k (n / 256) ++ [n % 256]

/-- SHA-1 message padding: `0x80`, zeros to 56 mod 64, 8-byte bit length. -/
def sha1Pad (msg : List Nat) : List Nat :=
  msg ++ [0x80] ++ List.replicate ((119 - msg.length % 64) % 64) 0
      ++ beBytes 8 (8 * msg.length)

/-- Split a byte list into 64-byte chunks (fuel keeps it structural). -/
def chunks64 : Nat → List Nat → List (List Nat)
  | 0, _ => []
  | _ + 1, [] => []
  | fuel + 1, l => l.take 64 :: chunks64 fuel (l.drop 64)

/-- Pack bytes into big-endian 32-bit words. -/
def wordsOf : List Nat → List Nat
  | b1 :: b2 :: b3 :: b4 :: rest =>
    (b1 * 2 ^ 24 + b2 * 2 ^ 16 + b3 * 256 + b4) :: wordsOf rest
  | _ => []

/-- Extend the 16 message words by one scheduled word per step. -/
def sha1SchedAux : Nat → List Nat → List Nat
  | 0, w => w
  | fuel + 1, w =>
    let n := w.length
    let x := Nat.xor (Nat.xor (w.getD (n - 3) 0) (w.getD (n - 8) 0))
                     (Nat.xor (w.getD (n - 14) 0) (w.getD (n - 16) 0))
    sha1SchedAux fuel (w ++ [rotl32 1 (x % 2 ^ 32)])

/-- The 80 scheduled words of one chunk. -/
def sha1Sched (w : List Nat) : List Nat := sha1SchedAux 64 w

/-- The round function of round `i`. -/
def sha1F (i b c d : Nat) : Nat :=
  let nb := Nat.xor 0xFFFFFFFF b
  if i < 20 then Nat.lor (Nat.land b c) (Nat.land nb d)
  else if i < 40 then Nat.xor (Nat.xor b c) d
  else if i < 60 then Nat.lor (Nat.lor (Nat.land b c) (Nat.land b d)) (Nat.land c d)
  else Nat.xor (Nat.xor b c) d

/-- The round constant of round `i`. -/
def sha1K (i : Nat) : Nat :=
  if i < 20 then 0x5A827999
  else if i < 40 then 0x6ED9EBA1
  else if i < 60 then 0x8F1BBCDC
  else 0xCA62C1D6

/-- One SHA-1 round: state `(a, b, c, d, e)` folded over `(i, wᵢ)`. -/
def sha1Round (st : Nat × Nat × Nat × Nat × Nat) (iw : Nat × Nat) :
    Nat × Nat × Nat × Nat × Nat :=
  match st, iw with
  | (a, b, c, d, e), (i, wi) =>
    let t := (rotl32 5 a + sha1F i b c d + e + sha1K i + wi) % 2 ^ 32
    (t, a, rotl32 30 b, c, d)

/-- Process one 64-byte chunk into the running hash state. -/
def sha1Chunk (h : Nat × Nat × Nat × Nat × Nat) (chunk : List Nat) :
    Nat × Nat × Nat × Nat × Nat :=
  match h with
  | (h0, h1, h2, h3, h4) =>
    let w := sha1Sched (wordsOf chunk)
    match ((List.range 80).zip w).foldl sha1Round (h0, h1, h2, h3, h4) with
    | (a, b, c, d, e) =>
      ((h0 + a) % 2 ^ 32, (h1 + b) % 2 ^ 32, (h2 + c) % 2 ^ 32,
       (h3 + d) % 2 ^ 32, (h4 + e) % 2 ^ 32)

/-- `k` lowercase hex digits of `n`, most significant first. -/
def hexDigits : Nat → Nat → List Char
  | 0, _ => []
  | k + 1, n =>
    hexDigits k (n / 16) ++
      [if n % 16 < 10 then digitCh (n % 16) else Char.ofNat (87 + n % 16)]

/-- Python `sha1(s)` of the source: the hex digest of the UTF-8 encoding. -/
def sha1 (s : String) : String :=
  let msg := sha1Pad (utf8Encode s)
  match (chunks64 (msg.length + 1) msg).foldl sha1Chunk
      (0x67452301, 0xEFCDAB89, 0x98BADCFE, 0x10325476, 0xC3D2E1F0) with
  | (h0, h1, h2, h3, h4) =>
    String.mk (hexDigits 8 h0 ++ hexDigits 8 h1 ++ hexDigits 8 h2 ++
               hexDigits 8 h3 ++ hexDigits 8 h4)

/-! ## Snapshot & Diff engine (`normalize_languages`, `extract_snapshot`,
`diff_snap`) -/

/-- Strip HTML tags as the regex `<.*?>` does: a `<` opens a tag only when a
closing `>` follows somewhere; an unclosed `<` is kept verbatim.  Fuel keeps
the recursion structural (each step consumes at least one character). -/
def stripTagsAux : Nat → List Char → List Char
  | 0, l => l
  | _ + 1, [] => []
  | fuel + 1, c :: t =>
    if c = '<' && t.contains '>' then
      stripTagsAux fuel ((t.dropWhile fun d => !(d = '>')).drop 1)
    else
      c :: stripTagsAux fuel t

/-- `LANG_TAG_RE.sub("", s)` of the source. -/
def stripTags (l : List Char) : List Char := stripTagsAux l.length l

/-- The separator class `SEP_RE = [;,/｜|]` of the source. -/
def isLangSep (c : Char) : Bool :=
  c = ';' || c = ',' || c = '/' || c = '｜' || c = '|'

/-- `re.split(SEP_RE, txt)`: split on separators, keeping empty chunks (they
are filtered by the caller exactly as the list comprehension does). -/
def splitSeps : List Char → List (List Char)
  | [] => [[]]
  | c :: t =>
    if isLangSep c then [] :: splitSeps t
    else
      match splitSeps t with
      | [] => [[c]]
      | h :: r => (c :: h) :: r

/-- `normalize_languages` of the source: tag-strip, split on separators,
strip/lower each part keeping the non-empty ones, delete the boilerplate
tokens, and return the sorted set. -/
def normalize_languages (s : Option String) : List String :=
  match s with
  | Option.none => []
  | Option.some str =>
    if str = "" then []
    else
      let txt := stripTags str.data
      let parts := (splitSeps txt).filterMap fun p =>
        let q := pyStrip p
        if q.isEmpty then Option.none else Option.some (pyLower q)
      let cleaned := parts.filterMap fun p =>
        let q := pyStrip (replaceAll (replaceAll (replaceAll p
                   "full audio".data []) "interface".data []) "subtitles".data [])
        if q.isEmpty then Option.none else Option.some (String.mk q)
      sortStrings cleaned.dedup

/-- `_strip_q` of the source: drop the query and fragment of a URL (the
`urlsplit`/`urlunsplit` round trip for the URLs the scanner sees); falsy
input is returned unchanged. -/
def strip_q (u : Option String) : Option String :=
  match u with
  | Option.none => Option.none
  | Option.some s =>
    if s = "" then Option.some s
    else Option.some (String.mk (s.data.takeWhile fun c => !(c = '?' || c = '#')))

/-- A value stored in a snapshot dict: Python `None`, `str`, `bool` or a list
of strings. -/
inductive Value where
  | null : Value
  | str : String → Value
  | bool : Bool → Value
  | list : List String → Value
deriving DecidableEq

/-- A snapshot: a Python dict in insertion order. -/
abbrev Snap := List (String × Value)

/-- `d.get(k)` on a snapshot: `None` both for a missing key and a stored
`None`. -/
def snapGet (s : Snap) (k : String) : Value := (dictGet? s k).getD Value.null

/-- A primitive JSON value inside `platforms` / `release_date`. -/
inductive JPrim where
  | jbool : Bool → JPrim
  | jstr : String → JPrim
deriving DecidableEq

/-- Serialization of one primitive as `json.dumps` renders it. -/
def jprimDump : JPrim → String
  | JPrim.jbool true => "true"
  | JPrim.jbool false => "false"
  | JPrim.jstr s => "\"" ++ s ++ "\""

/-- `json.dumps(d, sort_keys=True)` for a flat dict of primitives whose keys
need no escaping (the platform/release keys the scanner sees). -/
def jsonDumpSorted (l : List (String × JPrim)) : String :=
  "\x7b" ++ String.intercalate ", "
    ((List.insertionSort (fun a b => strLeP a.1 b.1) l).map fun kv =>
      "\"" ++ kv.1 ++ "\": " ++ jprimDump kv.2) ++ "\x7d"

instance : DecidableRel (fun (a b : String × JPrim) => strLeP a.1 b.1) :=
  fun a b => instDecidableEqBool (strLe a.1 b.1) true

/-- One genre entry of an appdetails record. -/
structure Genre where
  description : Option String
deriving DecidableEq

/-- The `price_overview` node of an appdetails record. -/
structure PriceOverview where
  final_formatted : Option String
deriving DecidableEq

/-- One screenshot entry of an appdetails record. -/
structure Screenshot where
  path_full : Option String
deriving DecidableEq

/-- The raw attribute set a successful fetch returns (the fields the scanner
reads).  A missing JSON key and an explicit `null` are both `none`. -/
structure ItemData where
  name : Option String
  type : Option String
  short_description : Option String
  supported_languages : Option String
  header_image : Option String
  capsule_imagev5 : Option String
  capsule_image : Option String
  screenshots : Option (List Screenshot)
  background : Option String
  is_free : Option Bool
  price_overview : Option PriceOverview
  genres : Option (List Genre)
  platforms : List (String × JPrim)
  release_date : List (String × JPrim)
deriving DecidableEq

/-- Python `a or b` for optional strings: `a` unless it is falsy. -/
def pyOrS (a b : Option String) : Option String :=
  match a with
  | Option.some s => if s = "" then b else Option.some s
  | Option.none => b

/-- Python `a or b` where the fallback is a plain string. -/
def pyOrStr (a : Option String) (b : String) : String :=
  match a with
  | Option.some s => if s = "" then b else s
  | Option.none => b

/-- Truthiness of `data.get("is_free")`. -/
def pyTruthyBool (a : Option Bool) : Bool :=
  match a with
  | Option.some b => b
  | Option.none => false

/-- `extract_snapshot` of the source: the normalized, comparable projection
of an `ItemData`, in the dict order the source writes it. -/
def extract_snapshot (data : ItemData) : Snap :=
  let price := data.price_overview.bind PriceOverview.final_formatted
  let langs := normalize_languages data.supported_languages
  let genres := (data.genres.getD []).map fun g => g.description.getD ""
  let name := pyOrStr data.name ""
  [("name", Value.str name),
   ("name_hash", Value.str (sha1 name)),
   ("short_description_hash", Value.str (sha1 (data.short_description.getD ""))),
   ("type", (data.type.map Value.str).getD Value.null),
   ("header_image", ((strip_q data.header_image).map Value.str).getD Value.null),
   ("capsule_imagev5", ((strip_q data.capsule_imagev5).map Value.str).getD Value.null),
   ("is_free", (data.is_free.map Value.bool).getD Value.null),
   ("price", Value.str (pyOrStr price (if pyTruthyBool data.is_free then "Free" else ""))),
   ("supported_languages", Value.list (sortStrings ((langs.filter fun x => !(x = "")).dedup))),
   ("genres_hash", Value.str (sha1 (String.intercalate ","
       (sortStrings ((genres.filter fun g => !(g = "")).dedup))))),
   ("platforms", Value.str (jsonDumpSorted data.platforms)),
   ("release", Value.str (jsonDumpSorted data.release_date))]

/-- How `diff_snap` renders a value into the emitted tuple: a list is
comma-joined first, then `None` becomes `""` and anything else `str(v)`. -/
def renderValue : Value → String
  | Value.null => ""
  | Value.str s => s
  | Value.bool true => "True"
  | Value.bool false => "False"
  | Value.list l => String.intercalate ", " l

/-- `sorted(set(old.keys()) | set(new.keys()))` of the source. -/
def unionKeys (old new : Snap) : List String :=
  sortStrings ((old.map Prod.fst ++ new.map Prod.fst).dedup)

/-- `diff_snap` of the source: one `(field, old, new)` tuple per differing
key, in sorted key order. -/
def diff_snap (old new : Snap) : List (String × String × String) :=
  (unionKeys old new).filterMap fun k =>
    let ov := snapGet old k
    let nv := snapGet new k
    if ov ≠ nv then Option.some (k, renderValue ov, renderValue nv) else Option.none

/-- Modelled from the spec's words, for comparison with `diff_snap`:
"semantically equal" snapshots — every projected field equal, list-valued
fields compared order-insensitively (as sets). -/
def valueSemEq : Value → Value → Bool
  | Value.list l1, Value.list l2 =>
    (l1.all fun x => l2.contains x) && (l2.all fun x => l1.contains x)
  | v, w => decide (v = w)

/-- Modelled from the spec's words: snapshots are semantically equal when
every field present in either is `valueSemEq`-equal. -/
def spec_semantically_equal (old new : Snap) : Bool :=
  (unionKeys old new).all fun k => valueSemEq (snapGet old k) (snapGet new k)

/-! ## Item builders (`build_new_item`, `build_update_item`,
`summarize_changes_for_title`) -/

/-- One change tuple `(field, oldValue, newValue)`. -/
abbrev Change := String × String × String

/-- An RSS item record as the scanner stores it in `items` / `updates`. -/
structure Item where
  title : String
  link : String
  guid : String
  pubDate : String
  description : String
  image : Option String
deriving DecidableEq

/-- The store page link `https://store.steampowered.com/app/{appid}/`. -/
def app_link (appid : Nat) : String :=
  "https://store.steampowered.com/app/" ++ py_str appid ++ "/"

/-- The dedup pattern `"/app/%d/" % appid`. -/
def app_link_pat (appid : Nat) : String := "/app/" ++ py_str appid ++ "/"

/-- `choose_image` of the source: the `or`-chain over the image fields. -/
def choose_image (data : ItemData) : Option String :=
  pyOrS data.header_image (pyOrS data.capsule_imagev5 (pyOrS data.capsule_image
    (pyOrS (((data.screenshots.getD []).getD 0 ⟨Option.none⟩).path_full)
      data.background)))

/-- Python `str(v)` of an optional string (`None` prints as `"None"`). -/
def pyStrOpt (a : Option String) : String :=
  match a with
  | Option.some s => s
  | Option.none => "None"

/-- `get_short_description` of the source: the primary description, else the
English storefront's (via the `fetchEn` oracle for
`fetch_appdetails_once(appid, "us", "en")`), else `type=..., appid=...`. -/
def get_short_description (fetchEn : Nat → Option ItemData) (appid : Nat)
    (data : ItemData) : String :=
  let fallback := "type=" ++ pyStrOpt data.type ++ ", appid=" ++ py_str appid
  match data.short_description with
  | Option.some s =>
    if s = "" then
      match fetchEn appid with
      | Option.some en => pyOrStr en.short_description fallback
      | Option.none => fallback
    else s
  | Option.none =>
    match fetchEn appid with
    | Option.some en => pyOrStr en.short_description fallback
    | Option.none => fallback

/-- `build_new_item` of the source. -/
def build_new_item (fetchEn : Nat → Option ItemData) (appid : Nat)
    (data : ItemData) (now_iso : String) : Item :=
  { title := data.name.getD ("App " ++ py_str appid) ++ "（新規追加）",
    link := app_link appid,
    guid := "steam-store-published-" ++ py_str appid,
    pubDate := now_iso,
    description := get_short_description fetchEn appid data,
    image := choose_image data }

/-- `pretty_change_label` of the source. -/
def pretty_change_label (k : String) : String :=
  if k = "name" then "タイトル"
  else if k = "name_hash" then "タイトル"
  else if k = "short_description_hash" then "説明"
  else if k = "type" then "タイプ"
  else if k = "header_image" then "ヘッダー画像"
  else if k = "capsule_imagev5" then "カプセル画像"
  else if k = "is_free" then "無料フラグ"
  else if k = "price" then "価格"
  else if k = "supported_languages" then "言語"
  else if k = "genres_hash" then "ジャンル"
  else if k = "platforms" then "対応OS"
  else if k = "release" then "リリース"
  else k

/-- The priority table of `summarize_changes_for_title` (`.get(t[0], 9)`). -/
def summary_priority (k : String) : Nat :=
  if k = "price" then 1
  else if k = "supported_languages" then 2
  else if k = "short_description_hash" then 3
  else if k = "header_image" then 4
  else if k = "name" then 5
  else if k = "name_hash" then 5
  else 9

/-- The sort key relation of the summarizer (`sorted` is stable; insertion
sort with `≤` keys is the same stable sort). -/
def changePriLe (a b : Change) : Prop := summary_priority a.1 ≤ summary_priority b.1

instance : DecidableRel changePriLe :=
  fun a b => Nat.decLe (summary_priority a.1) (summary_priority b.1)

/-- `sorted(changes, key=...)[:max_items]` of the source: the changes that
the short label surfaces, in priority order. -/
def summarize_selected (changes : List Change) (max_items : Nat) : List Change :=
  (List.insertionSort changePriLe changes).take max_items

/-- Python `[x.strip() for x in s.split(",") if x.strip()]` made into a set
(for the language summary). -/
def langSet (s : String) : List String :=
  ((s.splitOn ",").filterMap fun x =>
    let q := pyStrip x.data
    if q.isEmpty then Option.none else Option.some (String.mk q)).dedup

/-- `sorted(a - b)` on the language sets. -/
def sortedSetDiff (a b : List String) : List String :=
  sortStrings (a.filter fun x => !(b.contains x))

/-- The label fragment the summarizer emits for one selected change. -/
def summary_part (c : Change) : String :=
  match c with
  | (k, ov, nv) =>
    if k = "price" then
      if !(ov = "") && !(nv = "") && !(ov = nv) then "価格 " ++ ov ++ " → " ++ nv
      else "価格変更"
    else if k = "supported_languages" then
      let old := langSet ov
      let new := langSet nv
      let add := sortedSetDiff new old
      let rem := sortedSetDiff old new
      let detail := (if add.isEmpty then [] else ["+" ++ String.intercalate "," (add.take 3)]) ++
                    (if rem.isEmpty then [] else ["-" ++ String.intercalate "," (rem.take 3)])
      "言語 " ++ (if detail.isEmpty then "変更" else String.intercalate "/" detail)
    else
      pretty_change_label k ++ "更新"

/-- `summarize_changes_for_title` of the source (`max_items = 3`,
`max_len = 80` at every call site). -/
def summarize_changes_for_title (changes : List Change) (max_items max_len : Nat) :
    String :=
  let s := String.intercalate " / " ((summarize_selected changes max_items).map summary_part)
  if s.length ≤ max_len then s else s.take (max_len - 1) ++ "…"

/-- `build_update_item` of the source (`now_epoch` models
`int(time.time())` in the guid). -/
def build_update_item (appid : Nat) (data : ItemData) (changes : List Change)
    (now_iso : String) (now_epoch : Nat) : Item :=
  let base := data.name.getD ("App " ++ py_str appid)
  { title := if changes.isEmpty then base ++ "（更新）"
             else base ++ "（" ++ summarize_changes_for_title changes 3 80 ++ "）",
    link := app_link appid,
    guid := "steam-store-update-" ++ py_str appid ++ "-" ++ py_str now_epoch,
    pubDate := now_iso,
    description := String.intercalate "; " (changes.map fun c =>
      match c with
      | (k, ov, nv) =>
        let lbl := pretty_change_label k
        let ov := if k = "supported_languages" then (if ov = "" then "-" else ov) else ov
        let nv := if k = "supported_languages" then (if nv = "" then "-" else nv) else nv
        if k.endsWith "_hash" then lbl ++ ": 更新"
        else lbl ++ ": " ++ ov ++ " → " ++ nv),
    image := choose_image data }

/-! ## Durable state and the per-run pipeline of `main` -/

/-- One `state["seen"]` entry: `{"published": ..., "detected_at": ...}`. -/
structure SeenEntry where
  published : Bool
  detected_at : Option String
deriving DecidableEq

/-- The in-memory `CrawlState` aggregate `main` works on (`state.json` after
`json.load`). -/
structure CrawlState where
  seen : List (String × SeenEntry)
  pending : List Nat
  items : List Item
  updates : List Item
  snapshots : List (String × Snap)
  applist : List Nat
  crawl_cursor : Nat
deriving DecidableEq

/-- Lines 297–315 of `main`: refresh the identifier ordering from the
listing source.  `none` for the fetch result models `fetch_app_list`
raising; the source then prints an error and calls `sys.exit(1)`, which the
result `none` models — the run is over, nothing later executes.  On success
the fresh list (ids of the entries that carry an `appid` key) replaces
`state["applist"]` and the cursor is reset when out of range. -/
def refresh_applist (fetched : Option (List (Option Nat))) (st : CrawlState) :
    Option CrawlState :=
  match fetched with
  | Option.none => Option.none
  | Option.some apps =>
    let appids := apps.filterMap id
    Option.some { st with
      applist := appids,
      crawl_cursor := if st.crawl_cursor < appids.length then st.crawl_cursor else 0 }

/-- `start = state["crawl_cursor"] % len(appids)` (line 360). -/
def crawl_start (cursor len : Nat) : Nat := cursor % len

/-- Line 361: the run's batch window —
`appids[start:start+n]` when it fits, else
`appids[start:] + appids[:(start+n) % len(appids)]`. -/
def crawl_batch (appids : List Nat) (start n : Nat) : List Nat :=
  if start + n ≤ appids.length then (appids.drop start).take n
  else appids.drop start ++ appids.take ((start + n) % appids.length)

/-- Line 376: `state["crawl_cursor"] = (start + processed) % len(appids)`. -/
def crawl_next_cursor (len start processed : Nat) : Nat := (start + processed) % len

/-- The dedup scan of lines 328/345:
`any(("/app/%d/" % aid) in x.get("link","") for x in state["items"])`. -/
def items_have_link (items : List Item) (appid : Nat) : Bool :=
  items.any fun x => hasSubstr (app_link_pat appid).data x.link.data

/-- The New event emitted for `aid` by either path of the run, if any: only
when the fetch succeeds and no current entry of `state["items"]` matches the
link.  (Emission depends only on the fetch result and on `state["items"]`,
which steps 2 and 3 never mutate.) -/
def new_emit (fetch fetchEn : Nat → Option ItemData) (now_iso : String)
    (items : List Item) (aid : Nat) : Option Item :=
  match fetch aid with
  | Option.some data =>
    if items_have_link items aid then Option.none
    else Option.some (build_new_item fetchEn aid data now_iso)
  | Option.none => Option.none

/-- The accumulator of one run: the mutated state plus the two event lists
`published_events` / `update_events` being built (appended at the end, as
`list.append` does). -/
structure RunAcc where
  st : CrawlState
  published : List Item
  updates : List Item

/-- One iteration of the step-2 loop (lines 322–333): a newly appeared id is
fetched; on success a New item may be appended and the id becomes seen and
snapshotted; on failure it is marked unpublished and queued as pending. -/
def new_id_step (fetch fetchEn : Nat → Option ItemData) (now_iso : String)
    (acc : RunAcc) (aid : Nat) : RunAcc :=
  match fetch aid with
  | Option.some data =>
    { acc with
      published :=
        if items_have_link acc.st.items aid then acc.published
        else acc.published ++ [build_new_item fetchEn aid data now_iso],
      st := { acc.st with
        seen := dictSet acc.st.seen (py_str aid) ⟨true, Option.some now_iso⟩,
        snapshots := dictSet acc.st.snapshots (py_str aid) (extract_snapshot data) } }
  | Option.none =>
    { acc with st := { acc.st with
        seen := dictSet acc.st.seen (py_str aid) ⟨false, Option.none⟩,
        pending := acc.st.pending ++ [aid] } }

/-- Step 2 of `main`: process the sampled newly-appeared ids. -/
def run_new_ids (fetch fetchEn : Nat → Option ItemData) (now_iso : String)
    (newIds : List Nat) (acc : RunAcc) : RunAcc :=
  newIds.foldl (new_id_step fetch fetchEn now_iso) acc

/-- One iteration of the step-3 loop (lines 339–353): a pending id is
retried; on success it may emit a New item and, when a previous snapshot
exists and the diff is non-empty, a Changed item; on failure it is kept in
`remain`. -/
def pending_step (fetch fetchEn : Nat → Option ItemData) (now_iso : String)
    (now_epoch : Nat) (accr : RunAcc × List Nat) (aid : Nat) : RunAcc × List Nat :=
  match accr with
  | (acc, remain) =>
    match fetch aid with
    | Option.some data =>
      let snap := extract_snapshot data
      let prev := dictGet? acc.st.snapshots (py_str aid)
      ({ acc with
         published :=
           if items_have_link acc.st.items aid then acc.published
           else acc.published ++ [build_new_item fetchEn aid data now_iso],
         updates :=
           match prev with
           | Option.some prevSnap =>
             if prevSnap.isEmpty then acc.updates
             else
               let ch := diff_snap prevSnap snap
               if ch.isEmpty then acc.updates
               else acc.updates ++ [build_update_item aid data ch now_iso now_epoch]
           | Option.none => acc.updates,
         st := { acc.st with
           seen := dictSet acc.st.seen (py_str aid) ⟨true, Option.some now_iso⟩,
           snapshots := dictSet acc.st.snapshots (py_str aid) snap } }, remain)
    | Option.none => (acc, remain ++ [aid])

/-- Step 3 of `main` (lines 336–354): when the pending queue is non-empty,
shuffle it, retry the first `pending_retry` entries, and set the queue to
the failures plus the un-retried tail. -/
def run_pending (fetch fetchEn : Nat → Option ItemData)
    (shuffle : List Nat → List Nat) (now_iso : String) (now_epoch : Nat)
    (pending_retry : Nat) (acc : RunAcc) : RunAcc :=
  if acc.st.pending.isEmpty then acc
  else
    let p := shuffle acc.st.pending
    let to_check := p.take pending_retry
    let rest := p.drop pending_retry
    match to_check.foldl (pending_step fetch fetchEn now_iso now_epoch) (acc, []) with
    | (acc', remain) => { acc' with st := { acc'.st with pending := remain ++ rest } }

/-- Line 379/380 of `main`: `if events: seq = (events + seq)[:cap]` —
prepend-then-truncate, skipped entirely when the run emitted nothing. -/
def apply_bounded_insert {α : Type} (new old : List α) (cap : Nat) : List α :=
  if new.isEmpty then old else (new ++ old).take cap

/-- Steps 2 and 3 of one run, from a loaded state: the accumulator holding
the mutated state and both event lists. -/
def run_acc (fetch fetchEn : Nat → Option ItemData) (shuffle : List Nat → List Nat)
    (now_iso : String) (now_epoch : Nat) (newIds : List Nat) (pending_retry : Nat)
    (st : CrawlState) : RunAcc :=
  run_pending fetch fetchEn shuffle now_iso now_epoch pending_retry
    (run_new_ids fetch fetchEn now_iso newIds ⟨st, [], []⟩)

/-- The run's `published_events` list after steps 2 and 3. -/
def run_published (fetch fetchEn : Nat → Option ItemData)
    (shuffle : List Nat → List Nat) (now_iso : String) (now_epoch : Nat)
    (newIds : List Nat) (pending_retry : Nat) (st : CrawlState) : List Item :=
  (run_acc fetch fetchEn shuffle now_iso now_epoch newIds pending_retry st).published

/-- The state at the end of the run, after step 5 folded both event lists
into the bounded sequences. -/
def run_final_state (fetch fetchEn : Nat → Option ItemData)
    (shuffle : List Nat → List Nat) (now_iso : String) (now_epoch : Nat)
    (newIds : List Nat) (pending_retry max_items max_updates : Nat)
    (st : CrawlState) : CrawlState :=
  match run_acc fetch fetchEn shuffle now_iso now_epoch newIds pending_retry st with
  | ⟨st', published, updates⟩ =>
    { st' with
      items := apply_bounded_insert published st'.items max_items,
      updates := apply_bounded_insert updates st'.updates max_updates }

/-- The number of New events for identifier `appid` in an event list,
identified by the store link `build_new_item` writes. -/
def count_events_for (appid : Nat) (l : List Item) : Nat :=
  l.countP fun it => it.link = app_link appid

/-! ## State store (`load_state` / `save_state`) at the JSON level -/

/-- A JSON value, as `json.load` / `json.dump` see the state file. -/
inductive Json where
  | null : Json
  | bool : Bool → Json
  | num : Int → Json
  | str : String → Json
  | arr : List Json → Json
  | obj : List (String × Json) → Json

/-- `j.get(k)` on a JSON object. -/
def jGet : Json → String → Option Json
  | Json.obj fields, k => dictGet? fields k
  | _, _ => Option.none

/-- The zero-valued default state of `load_state` (line 265). -/
def default_state : Json :=
  Json.obj [("seen", Json.obj []), ("pending", Json.arr []), ("items", Json.arr []),
            ("updates", Json.arr []), ("snapshots", Json.obj []),
            ("applist", Json.arr []), ("crawl_cursor", Json.num 0)]

/-- `load_state` of the source: the default when the file is missing, else
the parsed content exactly as `json.load` returns it (an unparseable file
raises and is out of this model). -/
def load_state (file : Option Json) : Json :=
  match file with
  | Option.none => default_state
  | Option.some j => j

/-- Whether one `seen` entry has the current structured shape
`{"published": ..., "detected_at": ...}`. -/
def seen_entry_structured : Json → Bool
  | Json.obj fields => (dictGet? fields "published").isSome
  | _ => false

/-- Whether a loaded state's seen-set is in the current structured form
(every value an object carrying `published`). -/
def seen_translated (j : Json) : Bool :=
  match jGet j "seen" with
  | Option.some (Json.obj entries) => entries.all fun kv => seen_entry_structured kv.2
  | _ => false

/-- The two files `save_state` touches: the canonical state path and the
temporary path `p + ".tmp"`. -/
structure FsState where
  canonical : Option Json
  tmp : Option Json

/-- One filesystem step of `save_state`. -/
inductive SaveOp where
  | write_tmp : Json → SaveOp
  | replace_tmp : SaveOp

/-- Effect of one step: writing the temp file, or `os.replace(tmp, p)` —
the atomic rename of the temp file over the canonical path.  (A rename
without a temp file raises; the save sequence never reaches that case.) -/
def run_save_op (fs : FsState) : SaveOp → FsState
  | SaveOp.write_tmp j => { fs with tmp := Option.some j }
  | SaveOp.replace_tmp =>
    match fs.tmp with
    | Option.some j => { canonical := Option.some j, tmp := Option.none }
    | Option.none => fs

/-- `save_state` of the source as its sequence of filesystem steps: write
the serialized state to the temp path, then atomically rename it over the
canonical path. -/
def save_state_ops (j : Json) : List SaveOp :=
  [SaveOp.write_tmp j, SaveOp.replace_tmp]

/-- Run a prefix of the save (a crash is modelled by executing only the
first `steps` filesystem steps). -/
def run_save (fs : FsState) (ops : List SaveOp) : FsState :=
  ops.foldl run_save_op fs

/-- What a later run loads from a filesystem state. -/
def load_from_fs (fs : FsState) : Json := load_state fs.canonical

/-- Well-formedness of a stored value as `extract_snapshot` guarantees it:
a list-valued field is a sorted duplicate-free set. -/
def valueWf : Value → Prop
  | Value.list l => List.Sorted strLeP l ∧ l.Nodup
  | _ => True

/-- Recover the number from its digit list. -/
def valOfDigits (l : List Nat) : Nat := l.foldl (fun a d => a * 10 + d) 0

/-! ## Order facts about the string comparison -/

theorem charListLe_total (a b : List Char) :
    charListLe a b = true ∨ charListLe b a = true := by
  induction a generalizing b with
  | nil => left; rfl
  | cons x xs ih =>
    cases b with
    | nil => right; rfl
    | cons y ys =>
      simp only [charListLe]
      rcases lt_trichotomy x y with h | h | h
      · left; simp [h]
      · subst h
        rcases ih ys with h4 | h4
        · left; simp [h4]
        · right; simp [h4]
      · right; simp [h]

theorem charListLe_trans (a b c : List Char) (hab : charListLe a b = true)
    (hbc : charListLe b c = true) : charListLe a c = true := by
  induction a generalizing b c with
  | nil => rfl
  | cons x xs ih =>
    cases b with
    | nil => simp [charListLe] at hab
    | cons y ys =>
      cases c with
      | nil => simp [charListLe] at hbc
      | cons z zs =>
        simp only [charListLe] at hab hbc ⊢
        by_cases hxy : x < y
        · by_cases hyz : y < z
          · simp [lt_trans hxy hyz]
          · by_cases hyz2 : y = z
            · subst hyz2; simp [hxy]
            · simp [hyz, hyz2] at hbc
        · by_cases hxy2 : x = y
          · subst hxy2
            simp [hxy] at hab
            by_cases hyz : x < z
            · simp [hyz]
            · by_cases hyz2 : x = z
              · subst hyz2
                simp [hyz] at hbc
                simp [hyz, ih ys zs hab hbc]
              · simp [hyz, hyz2] at hbc
          · simp [hxy, hxy2] at hab

theorem charListLe_antisymm (a b : List Char) (hab : charListLe a b = true)
    (hba : charListLe b a = true) : a = b := by
  induction a generalizing b with
  | nil =>
    cases b with
    | nil => rfl
    | cons y ys => simp [charListLe] at hba
  | cons x xs ih =>
    cases b with
    | nil => simp [charListLe] at hab
    | cons y ys =>
      simp only [charListLe] at hab hba
      by_cases hxy : x < y
      · have : ¬ y < x := lt_asymm hxy
        have : ¬ y = x := fun h => absurd (h ▸ hxy) (lt_irrefl x)
        simp_all
      · by_cases hxy2 : x = y
        · subst hxy2
          simp [hxy] at hab hba
          simp [ih ys hab hba]
        · simp [hxy, hxy2] at hab

instance : IsTotal String strLeP :=
  ⟨fun a b => charListLe_total a.data b.data⟩

instance : IsTrans String strLeP :=
  ⟨fun a b c hab hbc => charListLe_trans a.data b.data c.data hab hbc⟩

instance : IsAntisymm String strLeP :=
  ⟨fun a b hab hba => String.ext (charListLe_antisymm a.data b.data hab hba)⟩

instance : IsTotal Change changePriLe :=
  ⟨fun a b => Nat.le_total (summary_priority a.1) (summary_priority b.1)⟩

instance : IsTrans Change changePriLe :=
  ⟨fun _ _ _ hab hbc => Nat.le_trans hab hbc⟩

theorem sortStrings_sorted (l : List String) : List.Sorted strLeP (sortStrings l) :=
  List.sorted_insertionSort strLeP l

theorem sortStrings_perm (l : List String) : (sortStrings l).Perm l :=
  List.perm_insertionSort strLeP l

theorem sortStrings_nodup (l : List String) (h : l.Nodup) : (sortStrings l).Nodup :=
  ((sortStrings_perm l).nodup_iff).mpr h

theorem sortStrings_mem (l : List String) (k : String) :
    k ∈ sortStrings l ↔ k ∈ l := (sortStrings_perm l).mem_iff

/-! ## Facts about dict lookup and the key union of `diff_snap` -/

theorem dictGet?_eq_none_of_not_mem {α : Type} (l : List (String × α)) (k : String)
    (h : k ∉ l.map Prod.fst) : dictGet? l k = Option.none := by
  induction l with
  | nil => rfl
  | cons p t ih =>
    simp only [List.map_cons, List.mem_cons] at h
    push_neg at h
    simp only [dictGet?]
    rw [if_neg (fun he => h.1 he.symm)]
    exact ih h.2

theorem dictGet?_mem {α : Type} (l : List (String × α)) (k : String) (v : α)
    (h : dictGet? l k = Option.some v) : (k, v) ∈ l := by
  induction l with
  | nil => simp [dictGet?] at h
  | cons p t ih =>
    rcases p with ⟨k', v'⟩
    simp only [dictGet?] at h
    by_cases he : k' = k
    · subst he
      rw [if_pos rfl] at h
      cases h
      exact List.mem_cons_self _ _
    · rw [if_neg he] at h
      exact List.mem_cons_of_mem _ (ih h)

theorem mem_unionKeys (old new : Snap) (k : String) :
    k ∈ unionKeys old new ↔ k ∈ old.map Prod.fst ∨ k ∈ new.map Prod.fst := by
  unfold unionKeys
  rw [sortStrings_mem, List.mem_dedup, List.mem_append]

theorem unionKeys_sorted (old new : Snap) : List.Sorted strLeP (unionKeys old new) :=
  sortStrings_sorted _

theorem unionKeys_nodup (old new : Snap) : (unionKeys old new).Nodup :=
  sortStrings_nodup _ (List.nodup_dedup _)

theorem diff_snap_eq_nil_iff (old new : Snap) :
    diff_snap old new = [] ↔ ∀ k, snapGet old k = snapGet new k := by
  constructor
  · intro h k
    by_cases hk : k ∈ unionKeys old new
    · have h2 := List.filterMap_eq_nil_iff.mp h k hk
      by_cases he : snapGet old k = snapGet new k
      · exact he
      · simp [he] at h2
    · rw [mem_unionKeys] at hk
      push_neg at hk
      rw [snapGet, snapGet, dictGet?_eq_none_of_not_mem old k hk.1,
          dictGet?_eq_none_of_not_mem new k hk.2]
  · intro h
    apply List.filterMap_eq_nil_iff.mpr
    intro k _
    simp [h k]

theorem sorted_nodup_ext (l1 l2 : List String) (s1 : List.Sorted strLeP l1)
    (s2 : List.Sorted strLeP l2) (n1 : l1.Nodup) (n2 : l2.Nodup)
    (h : ∀ x, x ∈ l1 ↔ x ∈ l2) : l1 = l2 :=
  List.eq_of_perm_of_sorted ((List.perm_ext_iff_of_nodup n1 n2).mpr h) s1 s2

theorem valueSemEq_true_iff (v w : Value) (hv : valueWf v) (hw : valueWf w) :
    valueSemEq v w = true ↔ v = w := by
  cases v with
  | list l1 =>
    cases w with
    | list l2 =>
      simp only [valueSemEq, Bool.and_eq_true, List.all_eq_true]
      constructor
      · intro ⟨h1, h2⟩
        have hx : ∀ x, x ∈ l1 ↔ x ∈ l2 := by
          intro x
          constructor
          · intro hm
            have := h1 x hm
            simpa [List.contains, List.elem_iff] using this
          · intro hm
            have := h2 x hm
            simpa [List.contains, List.elem_iff] using this
        rw [sorted_nodup_ext l1 l2 hv.1 hw.1 hv.2 hw.2 hx]
      · intro h
        cases h
        exact ⟨fun x hm => by simpa [List.contains, List.elem_iff] using hm,
               fun x hm => by simpa [List.contains, List.elem_iff] using hm⟩
    | null => simp [valueSemEq]
    | str s => simp [valueSemEq]
    | bool b => simp [valueSemEq]
  | null => cases w <;> simp [valueSemEq]
  | str s => cases w <;> simp [valueSemEq]
  | bool b => cases w <;> simp [valueSemEq]

theorem extract_snapshot_mem_wf (d : ItemData) (kv : String × Value)
    (hkv : kv ∈ extract_snapshot d) : valueWf kv.2 := by
  simp only [extract_snapshot, List.mem_cons, List.not_mem_nil, or_false] at hkv
  rcases hkv with rfl | rfl | rfl | rfl | rfl | rfl | rfl | rfl | rfl | rfl | rfl | rfl
  all_goals first
    | trivial
    | exact ⟨sortStrings_sorted _, sortStrings_nodup _ (List.nodup_dedup _)⟩
    | (cases d.type <;> trivial)
    | (cases strip_q d.header_image <;> trivial)
    | (cases strip_q d.capsule_imagev5 <;> trivial)
    | (cases d.is_free <;> trivial)

theorem extract_snapshot_value_wf (d : ItemData) (k : String) :
    valueWf (snapGet (extract_snapshot d) k) := by
  rw [snapGet]
  cases h : dictGet? (extract_snapshot d) k with
  | none => trivial
  | some v => exact extract_snapshot_mem_wf d (k, v) (dictGet?_mem _ _ _ h)

theorem diff_snap_eq_nil_iff_on_keys (old new : Snap) :
    diff_snap old new = [] ↔
      ∀ k ∈ unionKeys old new, snapGet old k = snapGet new k := by
  rw [diff_snap, List.filterMap_eq_nil_iff]
  refine forall₂_congr fun k _ => ?_
  by_cases he : snapGet old k = snapGet new k <;> simp [he]

/-- C1 (amended).  `diff(snapshot, snapshot)` is always the empty list, and
`diff(old, new)` is empty iff every projected field is literally equal
(list-valued fields compared element-wise in order).  Because
`extract_snapshot` stores every list-valued field as a sorted
duplicate-free set, on extracted snapshots this coincides with the spec's
order-insensitive semantic equality. -/
theorem diff_snap_empty_iff_fields_equal :
    (∀ s : Snap, diff_snap s s = []) ∧
    (∀ old new : Snap,
      diff_snap old new = [] ↔ ∀ k, snapGet old k = snapGet new k) ∧
    (∀ d1 d2 : ItemData,
      diff_snap (extract_snapshot d1) (extract_snapshot d2) = [] ↔
        spec_semantically_equal (extract_snapshot d1) (extract_snapshot d2) = true) := by
  refine ⟨fun s => (diff_snap_eq_nil_iff s s).mpr fun _ => rfl,
          diff_snap_eq_nil_iff, fun d1 d2 => ?_⟩
  rw [diff_snap_eq_nil_iff_on_keys, spec_semantically_equal, List.all_eq_true]
  refine forall₂_congr fun k _ => ?_
  exact (valueSemEq_true_iff _ _ (extract_snapshot_value_wf d1 k)
    (extract_snapshot_value_wf d2 k)).symm

/-- C1 (counterexample).  Two snapshots whose only field is the same
language set in different orders: the spec's order-insensitive semantic
equality holds, yet `diff_snap` — which compares list values as Python
lists, element-wise — reports a change, so "empty iff semantically equal"
fails as stated for arbitrary snapshots. -/
theorem diff_snap_detects_list_order_change :
    spec_semantically_equal
        [("supported_languages", Value.list ["english", "japanese"])]
        [("supported_languages", Value.list ["japanese", "english"])] = true ∧
    diff_snap [("supported_languages", Value.list ["english", "japanese"])]
        [("supported_languages", Value.list ["japanese", "english"])] ≠ [] := by
  constructor
  · decide
  · decide

/-- C2.  For an ordering of length 10 with cursor 8 and batch size 5 the
rolling window of line 361 visits exactly the elements at indices
[8, 9, 0, 1, 2], in that order, as one contiguous wrapped window, and the
post-run cursor of line 376 — the cursor advanced by the 5 attempted
identifiers modulo the ordering length — equals 3. -/
theorem crawl_batch_wraparound (appids : List Nat) (h : appids.length = 10) :
    crawl_batch appids (crawl_start 8 appids.length) 5 =
      [8, 9, 0, 1, 2].map (fun i => appids.getD i 0) ∧
    crawl_next_cursor appids.length (crawl_start 8 appids.length) 5 = 3 := by
  rcases appids with _ | ⟨a0, _ | ⟨a1, _ | ⟨a2, _ | ⟨a3, _ | ⟨a4, _ | ⟨a5, _ |
    ⟨a6, _ | ⟨a7, _ | ⟨a8, _ | ⟨a9, t⟩⟩⟩⟩⟩⟩⟩⟩⟩⟩ <;>
    simp only [List.length_cons, List.length_nil] at h <;> try omega
  have ht : t = [] := List.eq_nil_of_length_eq_zero (by omega)
  subst ht
  constructor
  · simp [crawl_batch, crawl_start]
  · simp [crawl_next_cursor, crawl_start]

/-- C2 (witness): the window and cursor at the concrete ordering
`[0, …, 9]`. -/
theorem crawl_batch_wraparound_witness :
    crawl_batch [0, 1, 2, 3, 4, 5, 6, 7, 8, 9]
        (crawl_start 8 (List.length [0, 1, 2, 3, 4, 5, 6, 7, 8, 9])) 5 =
      [8, 9, 0, 1, 2].map (fun i => [0, 1, 2, 3, 4, 5, 6, 7, 8, 9].getD i 0) ∧
    crawl_next_cursor (List.length [0, 1, 2, 3, 4, 5, 6, 7, 8, 9])
        (crawl_start 8 (List.length [0, 1, 2, 3, 4, 5, 6, 7, 8, 9])) 5 = 3 :=
  crawl_batch_wraparound [0, 1, 2, 3, 4, 5, 6, 7, 8, 9] rfl

/-- C4 (amended).  If refreshing the identifier ordering fails at the start
of a run, the run aborts (`sys.exit(1)`); the previously cached ordering is
not consulted.  Only a successful refresh lets the run continue, with the
fresh ordering installed and the cursor reset when out of range. -/
theorem refresh_applist_behavior :
    (∀ st : CrawlState, refresh_applist Option.none st = Option.none) ∧
    (∀ (st : CrawlState) (apps : List (Option Nat)),
      refresh_applist (Option.some apps) st =
        Option.some { st with
          applist := apps.filterMap id,
          crawl_cursor :=
            if st.crawl_cursor < (apps.filterMap id).length then st.crawl_cursor
            else 0 }) :=
  ⟨fun _ => rfl, fun _ _ => rfl⟩

/-- C4 (counterexample).  With a non-empty cached ordering `[1, 2, 3]` in
the loaded state, a failed listing refresh still ends the run
(`refresh_applist` yields `none`, the model of `sys.exit(1)`): the scanner
does not proceed with the cached ordering. -/
theorem listing_failure_aborts_run :
    refresh_applist Option.none
      { seen := [], pending := [], items := [], updates := [], snapshots := [],
        applist := [1, 2, 3], crawl_cursor := 0 } = Option.none ∧
    ({ seen := [], pending := [], items := [], updates := [], snapshots := [],
       applist := [1, 2, 3], crawl_cursor := 0 } : CrawlState).applist ≠ [] := by
  constructor
  · rfl
  · decide

/-- C5.  Snapshot extraction is a pure function — identical `ItemRecord`s
give identical snapshots — and language normalization is order- and
duplicate-insensitive on the spec's examples: `"English, Japanese<br>"` and
`"japanese ,english"` both normalize to the sorted set
`["english", "japanese"]`, so two records differing only in that rendering
carry the same `supported_languages` field. -/
theorem extract_snapshot_deterministic_and_language_normalization :
    (∀ d1 d2 : ItemData, d1 = d2 → extract_snapshot d1 = extract_snapshot d2) ∧
    normalize_languages (Option.some "English, Japanese<br>") = ["english", "japanese"] ∧
    normalize_languages (Option.some "japanese ,english") = ["english", "japanese"] ∧
    (∀ d : ItemData,
      snapGet (extract_snapshot
          { d with supported_languages := Option.some "English, Japanese<br>" })
          "supported_languages" =
        snapGet (extract_snapshot
          { d with supported_languages := Option.some "japanese ,english" })
          "supported_languages") := by
  refine ⟨fun d1 d2 h => by rw [h], by decide, by decide, fun d => ?_⟩
  rfl

/-- C6 (amended).  Inserting N+1 events into a sequence capped at N always
leaves exactly N entries: the result is the N-prefix of
`events ++ previous`, so order is preserved and the oldest (deepest)
entries are the ones discarded; moreover any run that emitted at least one
event leaves the sequence within its cap.  (The cap is only enforced when
the run emitted events — see the counterexample.) -/
theorem bounded_insert_caps_history (pub old : List Item) (N : Nat)
    (h : pub.length = N + 1) :
    (apply_bounded_insert pub old N).length = N ∧
    apply_bounded_insert pub old N = (pub ++ old).take N ∧
    apply_bounded_insert pub old N <+: pub ++ old ∧
    (∀ (pub2 old2 : List Item) (cap : Nat), pub2.isEmpty = false →
      (apply_bounded_insert pub2 old2 cap).length ≤ cap) := by
  have hne : pub.isEmpty = false := by
    cases pub with
    | nil => simp at h
    | cons a t => rfl
  refine ⟨?_, ?_, ?_, ?_⟩
  · rw [apply_bounded_insert, hne]
    simp only [Bool.false_eq_true, if_false, List.length_take, List.length_append]
    omega
  · rw [apply_bounded_insert, hne]
    simp
  · rw [apply_bounded_insert, hne]
    simp only [Bool.false_eq_true, if_false]
    exact ⟨(pub ++ old).drop N, List.take_append_drop N (pub ++ old)⟩
  · intro pub2 old2 cap h2
    rw [apply_bounded_insert, h2]
    simp only [Bool.false_eq_true, if_false]
    exact List.length_take_le cap (pub2 ++ old2)

/-- C6 (witness): inserting 2 events into a store capped at 1 leaves
exactly the first event. -/
theorem bounded_insert_caps_history_witness :
    (apply_bounded_insert
        [(⟨"t", "l", "g", "p", "d", Option.none⟩ : Item),
         (⟨"t2", "l2", "g2", "p2", "d2", Option.none⟩ : Item)] [] 1).length = 1 ∧
    apply_bounded_insert
        [(⟨"t", "l", "g", "p", "d", Option.none⟩ : Item),
         (⟨"t2", "l2", "g2", "p2", "d2", Option.none⟩ : Item)] [] 1 =
      (([(⟨"t", "l", "g", "p", "d", Option.none⟩ : Item),
         (⟨"t2", "l2", "g2", "p2", "d2", Option.none⟩ : Item)] ++ []).take 1) ∧
    apply_bounded_insert
        [(⟨"t", "l", "g", "p", "d", Option.none⟩ : Item),
         (⟨"t2", "l2", "g2", "p2", "d2", Option.none⟩ : Item)] [] 1 <+:
      [(⟨"t", "l", "g", "p", "d", Option.none⟩ : Item),
       (⟨"t2", "l2", "g2", "p2", "d2", Option.none⟩ : Item)] ++ [] ∧
    (∀ (pub2 old2 : List Item) (cap : Nat), pub2.isEmpty = false →
      (apply_bounded_insert pub2 old2 cap).length ≤ cap) :=
  bounded_insert_caps_history
    [(⟨"t", "l", "g", "p", "d", Option.none⟩ : Item),
     (⟨"t2", "l2", "g2", "p2", "d2", Option.none⟩ : Item)] [] 1 rfl

/-- C6 (counterexample).  A run that emits no events leaves an oversized
previous sequence untouched: with cap 1 and two persisted entries the
sequence still has 2 entries after the run, so "after every run the length
is at most the cap" fails as stated. -/
theorem bounded_insert_skipped_when_no_events :
    ¬ ((apply_bounded_insert ([] : List Item)
        [⟨"t", "l", "g", "p", "d", Option.none⟩,
         ⟨"t2", "l2", "g2", "p2", "d2", Option.none⟩] 1).length ≤ 1) := by
  decide

/-- C7.  `save_state` writes the serialized state to the temporary path and
then atomically renames it over the canonical path: a crash between the
temp-write and the rename (running only the first step) leaves the
canonical file — and what a later `load_state` reads — exactly as before,
while the completed sequence commits the new state. -/
theorem save_state_crash_preserves_committed_state :
    (∀ (fs : FsState) (j : Json),
      (run_save fs ((save_state_ops j).take 1)).canonical = fs.canonical) ∧
    (∀ (fs : FsState) (j : Json),
      load_from_fs (run_save fs ((save_state_ops j).take 1)) = load_from_fs fs) ∧
    (∀ (fs : FsState) (j : Json),
      load_from_fs (run_save fs (save_state_ops j)) = j) :=
  ⟨fun _ _ => rfl, fun _ _ => rfl, fun _ _ => rfl⟩

/-- C8 (amended).  `load_state` returns the zero-valued default when the
state file is missing — empty seen-set, pending queue, event lists,
snapshots and applist, cursor 0 — and otherwise returns the parsed file
verbatim: no schema translation of any kind is applied at load time. -/
theorem load_state_default_and_verbatim :
    load_state Option.none = default_state ∧
    (∀ j : Json, load_state (Option.some j) = j) ∧
    jGet default_state "seen" = Option.some (Json.obj []) ∧
    jGet default_state "pending" = Option.some (Json.arr []) ∧
    jGet default_state "items" = Option.some (Json.arr []) ∧
    jGet default_state "updates" = Option.some (Json.arr []) ∧
    jGet default_state "snapshots" = Option.some (Json.obj []) ∧
    jGet default_state "applist" = Option.some (Json.arr []) ∧
    jGet default_state "crawl_cursor" = Option.some (Json.num 0) :=
  ⟨rfl, fun _ => rfl, rfl, rfl, rfl, rfl, rfl, rfl, rfl⟩

/-- C8 (counterexample).  A state file holding the legacy seen-set shape —
the seen-set as a direct mapping `{"10": true}` instead of the structured
`{"published": ..., "detected_at": ...}` entries — is returned by
`load_state` exactly as stored: its seen-set is still not in the current
structured form after loading, so no legacy-to-current translation
happens. -/
theorem load_state_no_legacy_translation :
    load_state (Option.some (Json.obj
        [("seen", Json.obj [("10", Json.bool true)]), ("pending", Json.arr []),
         ("items", Json.arr []), ("updates", Json.arr []),
         ("snapshots", Json.obj []), ("applist", Json.arr []),
         ("crawl_cursor", Json.num 0)])) =
      Json.obj
        [("seen", Json.obj [("10", Json.bool true)]), ("pending", Json.arr []),
         ("items", Json.arr []), ("updates", Json.arr []),
         ("snapshots", Json.obj []), ("applist", Json.arr []),
         ("crawl_cursor", Json.num 0)] ∧
    seen_translated (load_state (Option.some (Json.obj
        [("seen", Json.obj [("10", Json.bool true)]), ("pending", Json.arr []),
         ("items", Json.arr []), ("updates", Json.arr []),
         ("snapshots", Json.obj []), ("applist", Json.arr []),
         ("crawl_cursor", Json.num 0)]))) = false :=
  ⟨rfl, rfl⟩

/-- C9.  The short update label surfaces at most 3 individual changes,
taken from the change list sorted by the fixed priority — price first, then
the language set, then the description digest, then the header imagery,
then the title (both title fields sharing one rank). -/
theorem summarize_priority_order_and_cap :
    (∀ changes : List Change, (summarize_selected changes 3).length ≤ 3) ∧
    (∀ changes : List Change, List.Sorted changePriLe (summarize_selected changes 3)) ∧
    (∀ changes : List Change, ∀ max_items max_len : Nat,
      summarize_changes_for_title changes max_items max_len =
        (let s := String.intercalate " / "
            ((summarize_selected changes max_items).map summary_part)
         if s.length ≤ max_len then s else s.take (max_len - 1) ++ "…")) ∧
    summary_priority "price" < summary_priority "supported_languages" ∧
    summary_priority "supported_languages" < summary_priority "short_description_hash" ∧
    summary_priority "short_description_hash" < summary_priority "header_image" ∧
    summary_priority "header_image" < summary_priority "name" ∧
    summary_priority "name_hash" = summary_priority "name" := by
  refine ⟨fun changes => List.length_take_le 3 _,
          fun changes => ?_, fun _ _ _ => rfl, by decide, by decide, by decide,
          by decide, by decide⟩
  exact List.Pairwise.sublist (List.take_sublist 3 _)
    (List.sorted_insertionSort changePriLe changes)

/-- C10.  For every pair of snapshots the change list of `diff_snap` is
strictly ascending in the field name (the sorted union of both key sets,
each key at most once), and each emitted tuple renders the two values with
`renderValue` — a list comma-joined, a missing field or `None` as the empty
string — and only for fields whose values differ. -/
theorem diff_snap_sorted_and_rendering (old new : Snap) :
    List.Pairwise (fun c c' : Change => strLeP c.1 c'.1 ∧ c.1 ≠ c'.1)
      (diff_snap old new) ∧
    (∀ c ∈ diff_snap old new,
      c.2.1 = renderValue (snapGet old c.1) ∧
      c.2.2 = renderValue (snapGet new c.1) ∧
      snapGet old c.1 ≠ snapGet new c.1) ∧
    (∀ l : List String, renderValue (Value.list l) = String.intercalate ", " l) ∧
    renderValue Value.null = "" := by
  refine ⟨?_, ?_, fun _ => rfl, rfl⟩
  · have hp : List.Pairwise (fun a b : String => strLeP a b ∧ a ≠ b)
        (unionKeys old new) :=
      (unionKeys_sorted old new).and (unionKeys_nodup old new)
    rw [diff_snap, List.pairwise_filterMap]
    refine hp.imp ?_
    intro a b hab c hc c' hc'
    rw [Option.mem_def] at hc hc'
    have ha : c.1 = a := by
      by_cases he : snapGet old a ≠ snapGet new a
      · rw [if_pos he] at hc; cases hc; rfl
      · rw [if_neg he] at hc; cases hc
    have hb : c'.1 = b := by
      by_cases he : snapGet old b ≠ snapGet new b
      · rw [if_pos he] at hc'; cases hc'; rfl
      · rw [if_neg he] at hc'; cases hc'
    rw [ha, hb]
    exact hab
  · intro c hc
    rw [diff_snap, List.mem_filterMap] at hc
    obtain ⟨k, -, hk⟩ := hc
    by_cases he : snapGet old k ≠ snapGet new k
    · rw [if_pos he] at hk
      cases hk
      exact ⟨rfl, rfl, he⟩
    · rw [if_neg he] at hk
      cases hk

/-! ## Injectivity of the rendered identifier, and counting New events -/

theorem natDigitsAux_lt_ten (fuel n : Nat) : ∀ d ∈ natDigitsAux fuel n, d < 10 := by
  induction fuel generalizing n with
  | zero => intro d hd; simp [natDigitsAux] at hd
  | succ fuel ih =>
    intro d hd
    rw [natDigitsAux] at hd
    by_cases h : n < 10
    · rw [if_pos h] at hd
      rcases List.mem_singleton.mp hd with rfl
      exact h
    · rw [if_neg h] at hd
      rcases List.mem_append.mp hd with h2 | h2
      · exact ih (n / 10) d h2
      · rcases List.mem_singleton.mp h2 with rfl
        exact Nat.mod_lt n (by omega)

theorem valOfDigits_append_one (l : List Nat) (d : Nat) :
    valOfDigits (l ++ [d]) = valOfDigits l * 10 + d := by
  rw [valOfDigits, valOfDigits, List.foldl_append]
  rfl

theorem valOfDigits_natDigitsAux (fuel n : Nat) (h : n < fuel) :
    valOfDigits (natDigitsAux fuel n) = n := by
  induction fuel generalizing n with
  | zero => omega
  | succ fuel ih =>
    rw [natDigitsAux]
    by_cases hn : n < 10
    · rw [if_pos hn]
      simp [valOfDigits]
    · rw [if_neg hn, valOfDigits_append_one]
      have hd : n / 10 < n := Nat.div_lt_self (by omega) (by omega)
      rw [ih (n / 10) (by omega)]
      omega

theorem digitCh_inj : ∀ a < 10, ∀ b < 10, digitCh a = digitCh b → a = b := by
  decide

theorem map_digitCh_inj (l1 l2 : List Nat) (h1 : ∀ d ∈ l1, d < 10)
    (h2 : ∀ d ∈ l2, d < 10) (h : l1.map digitCh = l2.map digitCh) : l1 = l2 := by
  induction l1 generalizing l2 with
  | nil => cases l2 with
    | nil => rfl
    | cons b t => simp at h
  | cons a t ih =>
    cases l2 with
    | nil => simp at h
    | cons b t2 =>
      simp only [List.map_cons, List.cons.injEq] at h
      have ha := digitCh_inj a (h1 a (List.mem_cons_self a t)) b
        (h2 b (List.mem_cons_self b t2)) h.1
      rw [ha, ih t2 (fun d hd => h1 d (List.mem_cons_of_mem a hd))
        (fun d hd => h2 d (List.mem_cons_of_mem b hd)) h.2]

theorem py_str_inj (m n : Nat) (h : py_str m = py_str n) : m = n := by
  have hd : (natDigitsAux (m + 1) m).map digitCh = (natDigitsAux (n + 1) n).map digitCh :=
    congrArg String.data h
  have he := map_digitCh_inj _ _ (natDigitsAux_lt_ten (m + 1) m)
    (natDigitsAux_lt_ten (n + 1) n) hd
  have := congrArg valOfDigits he
  rwa [valOfDigits_natDigitsAux (m + 1) m (Nat.lt_succ_self m),
    valOfDigits_natDigitsAux (n + 1) n (Nat.lt_succ_self n)] at this

theorem app_link_inj (a b : Nat) (h : app_link a = app_link b) : a = b := by
  have hd := congrArg String.data h
  rw [app_link, app_link, String.data_append, String.data_append,
      String.data_append, String.data_append, List.append_assoc,
      List.append_assoc] at hd
  have h1 := List.append_cancel_left hd
  have h2 := List.append_cancel_right h1
  exact py_str_inj a b (String.ext h2)

theorem new_emit_link (fetch fetchEn : Nat → Option ItemData) (now_iso : String)
    (items : List Item) (aid : Nat) (it : Item)
    (h : new_emit fetch fetchEn now_iso items aid = Option.some it) :
    it.link = app_link aid := by
  rw [new_emit] at h
  cases hf : fetch aid with
  | none => rw [hf] at h; simp at h
  | some data =>
    rw [hf] at h
    dsimp only at h
    by_cases hi : items_have_link items aid
    · rw [if_pos hi] at h; cases h
    · rw [if_neg hi] at h
      cases h
      rfl

theorem new_emit_none_of_have_link (fetch fetchEn : Nat → Option ItemData)
    (now_iso : String) (items : List Item) (aid : Nat)
    (h : items_have_link items aid = true) :
    new_emit fetch fetchEn now_iso items aid = Option.none := by
  rw [new_emit]
  cases fetch aid <;> simp [h]

theorem count_events_filterMap (fetch fetchEn : Nat → Option ItemData)
    (now_iso : String) (items : List Item) (X : Nat) (ids : List Nat) :
    count_events_for X (ids.filterMap (new_emit fetch fetchEn now_iso items)) =
      ids.count X *
        (if (new_emit fetch fetchEn now_iso items X).isSome then 1 else 0) := by
  induction ids with
  | nil => simp [count_events_for]
  | cons a t ih =>
    rw [List.filterMap_cons]
    cases he : new_emit fetch fetchEn now_iso items a with
    | none =>
      rw [ih, List.count_cons]
      by_cases hax : a = X
      · subst hax
        rw [he]
        simp
      · simp [hax]
    | some it =>
      rw [count_events_for, List.countP_cons, ← count_events_for, ih,
        List.count_cons]
      have hl := new_emit_link fetch fetchEn now_iso items a it he
      by_cases hax : a = X
      · subst hax
        rw [he]
        simp [hl]
      · have hne : ¬ (it.link = app_link X) := fun hc =>
          hax (app_link_inj a X (hl ▸ hc))
        simp [hax, hne]

theorem new_id_step_spec (fetch fetchEn : Nat → Option ItemData) (now_iso : String)
    (acc : RunAcc) (aid : Nat) :
    (new_id_step fetch fetchEn now_iso acc aid).st.items = acc.st.items ∧
    (new_id_step fetch fetchEn now_iso acc aid).published =
      acc.published ++ (new_emit fetch fetchEn now_iso acc.st.items aid).toList ∧
    (new_id_step fetch fetchEn now_iso acc aid).st.pending =
      acc.st.pending ++ (if (fetch aid).isNone then [aid] else []) := by
  rw [new_id_step, new_emit]
  cases fetch aid with
  | some data =>
    dsimp only
    by_cases hi : items_have_link acc.st.items aid
    · rw [if_pos hi, if_pos hi]
      simp
    · rw [if_neg hi, if_neg hi]
      simp
  | none => simp

theorem run_new_ids_spec (fetch fetchEn : Nat → Option ItemData) (now_iso : String)
    (ids : List Nat) (acc : RunAcc) :
    (run_new_ids fetch fetchEn now_iso ids acc).st.items = acc.st.items ∧
    (run_new_ids fetch fetchEn now_iso ids acc).published =
      acc.published ++ ids.filterMap (new_emit fetch fetchEn now_iso acc.st.items) ∧
    (run_new_ids fetch fetchEn now_iso ids acc).st.pending =
      acc.st.pending ++ ids.filter (fun a => (fetch a).isNone) := by
  induction ids generalizing acc with
  | nil => simp [run_new_ids]
  | cons a t ih =>
    have hstep := new_id_step_spec fetch fetchEn now_iso acc a
    have ihs := ih (new_id_step fetch fetchEn now_iso acc a)
    rw [run_new_ids, List.foldl_cons, ← run_new_ids]
    refine ⟨ihs.1.trans hstep.1, ?_, ?_⟩
    · rw [ihs.2.1, hstep.2.1, hstep.1, List.append_assoc]
      congr 1
      cases he : new_emit fetch fetchEn now_iso acc.st.items a with
      | none => rw [List.filterMap_cons, he]; rfl
      | some it => rw [List.filterMap_cons, he]; rfl
    · rw [ihs.2.2, hstep.2.2, List.append_assoc]
      congr 1
      rw [List.filter_cons]
      cases hf : (fetch a).isNone
      · rfl
      · rfl

theorem pending_step_spec (fetch fetchEn : Nat → Option ItemData)
    (now_iso : String) (now_epoch : Nat) (acc : RunAcc) (rem : List Nat)
    (aid : Nat) :
    (pending_step fetch fetchEn now_iso now_epoch (acc, rem) aid).1.st.items =
      acc.st.items ∧
    (pending_step fetch fetchEn now_iso now_epoch (acc, rem) aid).1.published =
      acc.published ++ (new_emit fetch fetchEn now_iso acc.st.items aid).toList := by
  rw [pending_step, new_emit]
  cases fetch aid with
  | some data =>
    dsimp only
    by_cases hi : items_have_link acc.st.items aid
    · rw [if_pos hi, if_pos hi]
      simp
    · rw [if_neg hi, if_neg hi]
      simp
  | none => simp

theorem pending_fold_spec (fetch fetchEn : Nat → Option ItemData)
    (now_iso : String) (now_epoch : Nat) (ids : List Nat) (acc : RunAcc)
    (rem : List Nat) :
    (ids.foldl (pending_step fetch fetchEn now_iso now_epoch) (acc, rem)).1.st.items =
      acc.st.items ∧
    (ids.foldl (pending_step fetch fetchEn now_iso now_epoch) (acc, rem)).1.published =
      acc.published ++ ids.filterMap (new_emit fetch fetchEn now_iso acc.st.items) := by
  induction ids generalizing acc rem with
  | nil => simp
  | cons a t ih =>
    have hstep := pending_step_spec fetch fetchEn now_iso now_epoch acc rem a
    have ihs := ih (pending_step fetch fetchEn now_iso now_epoch (acc, rem) a).1
      (pending_step fetch fetchEn now_iso now_epoch (acc, rem) a).2
    rw [List.foldl_cons]
    refine ⟨ihs.1.trans hstep.1, ?_⟩
    rw [ihs.2, hstep.2, hstep.1, List.append_assoc]
    congr 1
    cases he : new_emit fetch fetchEn now_iso acc.st.items a with
    | none => rw [List.filterMap_cons, he]; rfl
    | some it => rw [List.filterMap_cons, he]; rfl

theorem run_pending_published (fetch fetchEn : Nat → Option ItemData)
    (shuffle : List Nat → List Nat) (now_iso : String) (now_epoch : Nat)
    (pending_retry : Nat) (acc : RunAcc) :
    (run_pending fetch fetchEn shuffle now_iso now_epoch pending_retry acc).published =
      acc.published ++
        (if acc.st.pending.isEmpty then []
         else ((shuffle acc.st.pending).take pending_retry).filterMap
           (new_emit fetch fetchEn now_iso acc.st.items)) := by
  rw [run_pending]
  by_cases hp : acc.st.pending.isEmpty
  · rw [if_pos hp, if_pos hp]
    simp
  · rw [if_neg hp, if_neg hp]
    have hf := pending_fold_spec fetch fetchEn now_iso now_epoch
      ((shuffle acc.st.pending).take pending_retry) acc []
    exact hf.2

theorem run_published_closed (fetch fetchEn : Nat → Option ItemData)
    (shuffle : List Nat → List Nat) (now_iso : String) (now_epoch : Nat)
    (newIds : List Nat) (pending_retry : Nat) (st : CrawlState) :
    run_published fetch fetchEn shuffle now_iso now_epoch newIds pending_retry st =
      newIds.filterMap (new_emit fetch fetchEn now_iso st.items) ++
        (if (st.pending ++ newIds.filter (fun a => (fetch a).isNone)).isEmpty then []
         else ((shuffle (st.pending ++ newIds.filter (fun a => (fetch a).isNone))).take
             pending_retry).filterMap (new_emit fetch fetchEn now_iso st.items)) := by
  rw [run_published, run_acc, run_pending_published]
  have hs := run_new_ids_spec fetch fetchEn now_iso newIds ⟨st, [], []⟩
  rw [hs.2.1, hs.2.2, hs.1]
  rfl

theorem count_events_for_append (X : Nat) (l1 l2 : List Item) :
    count_events_for X (l1 ++ l2) = count_events_for X l1 + count_events_for X l2 :=
  List.countP_append _ l1 l2

theorem new_emit_isSome_fetch (fetch fetchEn : Nat → Option ItemData)
    (now_iso : String) (items : List Item) (aid : Nat)
    (h : (new_emit fetch fetchEn now_iso items aid).isSome = true) :
    (fetch aid).isNone = false := by
  cases hf : fetch aid with
  | none => rw [new_emit, hf] at h; simp at h
  | some data => rfl

theorem run_published_count_bound
    (fetch fetchEn : Nat → Option ItemData) (shuffle : List Nat → List Nat)
    (now_iso : String) (now_epoch : Nat) (newIds : List Nat)
    (pending_retry : Nat) (st : CrawlState) (X : Nat)
    (hsh : ∀ l : List Nat, (shuffle l).Perm l)
    (hn : newIds.Nodup) (hp : st.pending.Nodup)
    (hnew : ∀ a ∈ newIds, dictGet? st.seen (py_str a) = Option.none)
    (hpend : ∀ a ∈ st.pending, dictGet? st.seen (py_str a) ≠ Option.none) :
    count_events_for X
      (run_published fetch fetchEn shuffle now_iso now_epoch newIds pending_retry st) ≤ 1 ∧
    (items_have_link st.items X = true →
      count_events_for X
        (run_published fetch fetchEn shuffle now_iso now_epoch newIds pending_retry st) = 0) := by
  rw [run_published_closed, count_events_for_append, count_events_filterMap]
  by_cases hpe :
      (st.pending ++ newIds.filter fun a => (fetch a).isNone).isEmpty = true
  · rw [if_pos hpe]
    cases hes : (new_emit fetch fetchEn now_iso st.items X).isSome with
    | false =>
      constructor
      · simp [count_events_for]
      · intro _
        simp [count_events_for]
    | true =>
      constructor
      · have hcn : newIds.count X ≤ 1 := List.nodup_iff_count_le_one.mp hn X
        simp [count_events_for]
        omega
      · intro hih
        rw [new_emit_none_of_have_link fetch fetchEn now_iso st.items X hih] at hes
        simp at hes
  · rw [if_neg hpe, count_events_filterMap]
    have hct : ((shuffle (st.pending ++ newIds.filter fun a => (fetch a).isNone)).take
        pending_retry).count X ≤
        st.pending.count X + (newIds.filter fun a => (fetch a).isNone).count X := by
      calc ((shuffle (st.pending ++ newIds.filter fun a => (fetch a).isNone)).take
            pending_retry).count X ≤
          (shuffle (st.pending ++ newIds.filter fun a => (fetch a).isNone)).count X :=
            List.Sublist.count_le (List.take_sublist _ _) X
        _ = (st.pending ++ newIds.filter fun a => (fetch a).isNone).count X :=
            (hsh _).count_eq X
        _ = st.pending.count X + (newIds.filter fun a => (fetch a).isNone).count X :=
            List.count_append X _ _
    cases hes : (new_emit fetch fetchEn now_iso st.items X).isSome with
    | false =>
      constructor
      · simp
      · intro _
        simp
    | true =>
      have hfn : (fetch X).isNone = false :=
        new_emit_isSome_fetch fetch fetchEn now_iso st.items X hes
      have hcf : (newIds.filter fun a => (fetch a).isNone).count X = 0 := by
        rw [List.count_eq_zero]
        intro hmf
        rw [List.mem_filter] at hmf
        rw [hmf.2] at hfn
        cases hfn
      constructor
      · by_cases hmem : X ∈ newIds
        · have hxp : X ∉ st.pending := fun hm => hpend X hm (hnew X hmem)
          have hcp : st.pending.count X = 0 := List.count_eq_zero.mpr hxp
          have hcn : newIds.count X ≤ 1 := List.nodup_iff_count_le_one.mp hn X
          simp only [if_true, Nat.mul_one]
          omega
        · have hcn : newIds.count X = 0 := List.count_eq_zero.mpr hmem
          have hcp : st.pending.count X ≤ 1 := List.nodup_iff_count_le_one.mp hp X
          simp only [if_true, Nat.mul_one]
          omega
      · intro hih
        rw [new_emit_none_of_have_link fetch fetchEn now_iso st.items X hih] at hes
        simp at hes

theorem run_pending_items (fetch fetchEn : Nat → Option ItemData)
    (shuffle : List Nat → List Nat) (now_iso : String) (now_epoch : Nat)
    (pending_retry : Nat) (acc : RunAcc) :
    (run_pending fetch fetchEn shuffle now_iso now_epoch pending_retry acc).st.items =
      acc.st.items := by
  rw [run_pending]
  by_cases hp : acc.st.pending.isEmpty
  · rw [if_pos hp]
  · rw [if_neg hp]
    exact (pending_fold_spec fetch fetchEn now_iso now_epoch
      ((shuffle acc.st.pending).take pending_retry) acc []).1

theorem run_acc_items (fetch fetchEn : Nat → Option ItemData)
    (shuffle : List Nat → List Nat) (now_iso : String) (now_epoch : Nat)
    (newIds : List Nat) (pending_retry : Nat) (st : CrawlState) :
    (run_acc fetch fetchEn shuffle now_iso now_epoch newIds pending_retry st).st.items =
      st.items := by
  rw [run_acc, run_pending_items]
  exact (run_new_ids_spec fetch fetchEn now_iso newIds ⟨st, [], []⟩).1

/-- C3 (amended).  Under a consistent loaded state — newly-appeared ids are
not yet seen, pending ids already have a seen-entry, and neither sample
holds duplicates — a single run appends at most one New event for any
identifier X to `published_events`: the new-arrival path and the
pending-retry path are mutually exclusive for X.  The dedup scan itself
checks the persisted `state["items"]` of earlier runs (not the events of
the current run): an identifier whose New event is already persisted there
is not emitted again at all, and the `newEvents` sequence ends the run with
at most one New event for X beyond those already persisted. -/
theorem new_event_unique_per_run
    (fetch fetchEn : Nat → Option ItemData) (shuffle : List Nat → List Nat)
    (now_iso : String) (now_epoch : Nat) (newIds : List Nat)
    (pending_retry max_items max_updates : Nat) (st : CrawlState) (X : Nat)
    (hsh : ∀ l : List Nat, (shuffle l).Perm l)
    (hn : newIds.Nodup) (hp : st.pending.Nodup)
    (hnew : ∀ a ∈ newIds, dictGet? st.seen (py_str a) = Option.none)
    (hpend : ∀ a ∈ st.pending, dictGet? st.seen (py_str a) ≠ Option.none) :
    count_events_for X
      (run_published fetch fetchEn shuffle now_iso now_epoch newIds pending_retry st) ≤ 1 ∧
    (items_have_link st.items X = true →
      count_events_for X
        (run_published fetch fetchEn shuffle now_iso now_epoch newIds pending_retry st) = 0) ∧
    count_events_for X
      (run_final_state fetch fetchEn shuffle now_iso now_epoch newIds pending_retry
        max_items max_updates st).items ≤ 1 + count_events_for X st.items := by
  have h := run_published_count_bound fetch fetchEn shuffle now_iso now_epoch newIds
    pending_retry st X hsh hn hp hnew hpend
  refine ⟨h.1, h.2, ?_⟩
  have hitems :
      (run_acc fetch fetchEn shuffle now_iso now_epoch newIds pending_retry st).st.items =
        st.items :=
    run_acc_items fetch fetchEn shuffle now_iso now_epoch newIds pending_retry st
  show count_events_for X
      (apply_bounded_insert
        (run_acc fetch fetchEn shuffle now_iso now_epoch newIds pending_retry st).published
        (run_acc fetch fetchEn shuffle now_iso now_epoch newIds pending_retry st).st.items
        max_items) ≤ 1 + count_events_for X st.items
  rw [hitems, apply_bounded_insert]
  by_cases hb :
      (run_acc fetch fetchEn shuffle now_iso now_epoch newIds pending_retry st).published.isEmpty
  · rw [if_pos hb]
    omega
  · rw [if_neg hb]
    calc count_events_for X
          (((run_acc fetch fetchEn shuffle now_iso now_epoch newIds pending_retry
              st).published ++ st.items).take max_items) ≤
        count_events_for X
          ((run_acc fetch fetchEn shuffle now_iso now_epoch newIds pending_retry
              st).published ++ st.items) :=
          List.Sublist.countP_le _ (List.take_sublist max_items _)
      _ = count_events_for X
            (run_acc fetch fetchEn shuffle now_iso now_epoch newIds pending_retry
              st).published + count_events_for X st.items :=
          count_events_for_append X _ st.items
      _ ≤ 1 + count_events_for X st.items := Nat.add_le_add_right h.1 _

/-- C3 (witness): the per-run New-event bound instantiated at a concrete
consistent state. -/
theorem new_event_unique_per_run_witness :
    count_events_for 3
      (run_published (fun _ => Option.none) (fun _ => Option.none) id "T" 0 [3] 1
        ⟨[], [], [], [], [], [], 0⟩) ≤ 1 ∧
    (items_have_link (⟨[], [], [], [], [], [], 0⟩ : CrawlState).items 3 = true →
      count_events_for 3
        (run_published (fun _ => Option.none) (fun _ => Option.none) id "T" 0 [3] 1
          ⟨[], [], [], [], [], [], 0⟩) = 0) ∧
    count_events_for 3
      (run_final_state (fun _ => Option.none) (fun _ => Option.none) id "T" 0 [3] 1
        300 500 ⟨[], [], [], [], [], [], 0⟩).items ≤
      1 + count_events_for 3 (⟨[], [], [], [], [], [], 0⟩ : CrawlState).items :=
  new_event_unique_per_run (fun _ => Option.none) (fun _ => Option.none) id "T" 0
    [3] 1 300 500 ⟨[], [], [], [], [], [], 0⟩ 3 (fun l => List.Perm.refl l)
    (by decide) (by decide) (by decide) (by decide)

/-- C3 (counterexample).  The dedup scan checks only the persisted items of
previous runs, so it does not deduplicate within a run: with a loadable but
inconsistent state whose pending queue holds id 7 while the seen-set does
not (`load_state` validates nothing), id 7 flows through both the
new-arrival path and the pending-retry path of the same run, and the
`newEvents` sequence ends the run with TWO New events for 7 — not exactly
one, as the claim states. -/
theorem duplicate_new_event_from_inconsistent_state :
    count_events_for 7
      (run_final_state
        (fun _ => Option.some ⟨Option.none, Option.none, Option.none, Option.none,
          Option.none, Option.none, Option.none, Option.none, Option.none,
          Option.none, Option.none, Option.none, [], []⟩)
        (fun _ => Option.none) id "T" 0 [7] 100 300 500
        ⟨[], [7], [], [], [], [], 0⟩).items = 2 := by
  decide
